import Mathlib

/-!
Verification of the consensus / block-production core of the
Antigravity-Chain node (Rust sources under `src/src-tauri/src`).

Strings from the Rust code are modelled as their UTF-8 byte sequences
(`List Nat`, each entry `< 256`); `u64` / `u32` / `u16` arithmetic is
modelled on `Nat` with explicit `% 2^w` or saturating operations where the
source uses wrapping / saturating operations; `f64` trust scores are
modelled as exact rationals (`ℚ`).
-/

namespace AGChain

/-- 2^32, the modulus of `u32` arithmetic. -/
def U32MOD : Nat := 4294967296

/-- 2^64 - 1, the saturation bound of `u64` arithmetic. -/
def U64MAX : Nat := 18446744073709551615

/-- `u64::saturating_add`. -/
def satAdd (a b : Nat) : Nat := min (a + b) U64MAX

/-- `u64::saturating_sub` (coincides with truncated `Nat` subtraction). -/
def satSub (a b : Nat) : Nat := a - b

/-- Truncate to 32 bits. -/
def u32 (x : Nat) : Nat := x % U32MOD

/-- 32-bit right rotation. -/
def rotr (n x : Nat) : Nat := u32 ((x >>> n) ||| (x <<< (32 - n)))

/-- SHA-256 Ch function. -/
def shCh (x y z : Nat) : Nat := (x &&& y) ^^^ ((x ^^^ 4294967295) &&& z)

/-- SHA-256 Maj function. -/
def shMaj (x y z : Nat) : Nat := (x &&& y) ^^^ (x &&& z) ^^^ (y &&& z)

/-- SHA-256 big sigma 0. -/
def bsig0 (x : Nat) : Nat := rotr 2 x ^^^ rotr 13 x ^^^ rotr 22 x

/-- SHA-256 big sigma 1. -/
def bsig1 (x : Nat) : Nat := rotr 6 x ^^^ rotr 11 x ^^^ rotr 25 x

/-- SHA-256 small sigma 0. -/
def ssig0 (x : Nat) : Nat := rotr 7 x ^^^ rotr 18 x ^^^ (x >>> 3)

/-- SHA-256 small sigma 1. -/
def ssig1 (x : Nat) : Nat := rotr 17 x ^^^ rotr 19 x ^^^ (x >>> 10)

/-- SHA-256 round constants. -/
def shK : List Nat :=
  [1116352408, 1899447441, 3049323471, 3921009573, 961987163,
   1508970993, 2453635748, 2870763221, 3624381080, 310598401,
   607225278, 1426881987, 1925078388, 2162078206, 2614888103,
   3248222580, 3835390401, 4022224774, 264347078, 604807628,
   770255983, 1249150122, 1555081692, 1996064986, 2554220882,
   2821834349, 2952996808, 3210313671, 3336571891, 3584528711,
   113926993, 338241895, 666307205, 773529912, 1294757372,
   1396182291, 1695183700, 1986661051, 2177026350, 2456956037,
   2730485921, 2820302411, 3259730800, 3345764771, 3516065817,
   3600352804, 4094571909, 275423344, 430227734, 506948616,
   659060556, 883997877, 958139571, 1322822218, 1537002063,
   1747873779, 1955562222, 2024104815, 2227730452, 2361852424,
   2428436474, 2756734187, 3204031479, 3329325298]
/-- SHA-256 initial hash state. -/
def shH0 : List Nat :=
  [1779033703, 3144134277, 1013904242, 2773480762,
   1359893119, 2600822924, 528734635, 1541459225]
/-- Group a byte list into big-endian 32-bit words (length divisible by 4). -/
def bytesToWords : List Nat → List Nat
  | a :: b :: c :: d :: rest => (((a * 256 + b) * 256 + c) * 256 + d) :: bytesToWords rest
  | _ => []

/-- Serialize a 32-bit word to 4 big-endian bytes. -/
def wordToBytes (w : Nat) : List Nat :=
  [w / 16777216 % 256, w / 65536 % 256, w / 256 % 256, w % 256]

/-- Extend the 16 message-schedule words by `n` more words. -/
def extendW : List Nat → Nat → List Nat
  | w, 0 => w
  | w, n + 1 =>
      let t := u32 (ssig1 (w.getD (w.length - 2) 0) + w.getD (w.length - 7) 0 +
                    ssig0 (w.getD (w.length - 15) 0) + w.getD (w.length - 16) 0)
      extendW (w ++ [t]) n

/-- One step of the SHA-256 compression loop. -/
def shRound (st : Nat × Nat × Nat × Nat × Nat × Nat × Nat × Nat) (kw : Nat × Nat) :
    Nat × Nat × Nat × Nat × Nat × Nat × Nat × Nat :=
  match st, kw with
  | (a, b, c, d, e, f, g, h), (k, w) =>
      let t1 := u32 (h + bsig1 e + shCh e f g + k + w)
      let t2 := u32 (bsig0 a + shMaj a b c)
      (u32 (t1 + t2), a, b, c, u32 (d + t1), e, f, g)

/-- Compress one 64-byte chunk into the running 8-word state. -/
def shCompress (state : List Nat) (chunk : List Nat) : List Nat :=
  let w := extendW (bytesToWords chunk) 48
  let a0 := state.getD 0 0
  let b0 := state.getD 1 0
  let c0 := state.getD 2 0
  let d0 := state.getD 3 0
  let e0 := state.getD 4 0
  let f0 := state.getD 5 0
  let g0 := state.getD 6 0
  let h0 := state.getD 7 0
  match (shK.zip w).foldl shRound (a0, b0, c0, d0, e0, f0, g0, h0) with
  | (a, b, c, d, e, f, g, h) =>
      [u32 (a0 + a), u32 (b0 + b), u32 (c0 + c), u32 (d0 + d),
       u32 (e0 + e), u32 (f0 + f), u32 (g0 + g), u32 (h0 + h)]

/-- Split a byte list into 64-byte chunks (the fuel argument only bounds the
recursion depth; `chunks64` passes the list length, which always suffices). -/
def chunks64Go : Nat → List Nat → List (List Nat)
  | _, [] => []
  | 0, _ => []
  | fuel + 1, a :: rest => ((a :: rest).take 64) :: chunks64Go fuel ((a :: rest).drop 64)

/-- Split a byte list into 64-byte chunks. -/
def chunks64 (l : List Nat) : List (List Nat) := chunks64Go l.length l

/-- SHA-256 padding: append 0x80, zeros, and the 64-bit big-endian bit length. -/
def shPad (msg : List Nat) : List Nat :=
  let r := msg.length % 64
  let zeros := (119 - r) % 64
  let bitLen := msg.length * 8
  msg ++ [128] ++ List.replicate zeros 0 ++
    [bitLen / 72057594037927936 % 256, bitLen / 281474976710656 % 256,
     bitLen / 1099511627776 % 256, bitLen / 4294967296 % 256,
     bitLen / 16777216 % 256, bitLen / 65536 % 256,
     bitLen / 256 % 256, bitLen % 256]

/-- SHA-256 of a byte sequence, as a list of 32 bytes. -/
def sha256 (msg : List Nat) : List Nat :=
  ((chunks64 (shPad msg)).foldl shCompress shH0).flatMap wordToBytes

/-- Big-endian bytes of a `u64` (`to_be_bytes`). -/
def toBE8 (n : Nat) : List Nat :=
  [n / 72057594037927936 % 256, n / 281474976710656 % 256, n / 1099511627776 % 256,
   n / 4294967296 % 256, n / 16777216 % 256, n / 65536 % 256, n / 256 % 256, n % 256]

/-- Big-endian bytes of a `u32`. -/
def toBE4 (n : Nat) : List Nat :=
  [n / 16777216 % 256, n / 65536 % 256, n / 256 % 256, n % 256]

/-- Big-endian bytes of a `u16`. -/
def toBE2 (n : Nat) : List Nat := [n / 256 % 256, n % 256]

/-- Little-endian bytes of a `u64` (`to_le_bytes`). -/
def toLE8 (n : Nat) : List Nat :=
  [n % 256, n / 256 % 256, n / 65536 % 256, n / 16777216 % 256,
   n / 4294967296 % 256, n / 1099511627776 % 256, n / 281474976710656 % 256,
   n / 72057594037927936 % 256]

/-- Read a little-endian byte sequence as a number (`u64::from_le_bytes`). -/
def fromLEBytes : List Nat → Nat
  | [] => 0
  | b :: rest => b + 256 * fromLEBytes rest

/-- One lowercase hex digit as an ASCII byte. -/
def hexDigit (n : Nat) : Nat := if n < 10 then 48 + n else 87 + n

/-- Lowercase hex encoding of a byte sequence, as ASCII bytes (`hex::encode`). -/
def hexEncode (bytes : List Nat) : List Nat :=
  bytes.flatMap fun b => [hexDigit (b / 16), hexDigit (b % 16)]

/-- The byte string `"SYSTEM"`, the coinbase sender sentinel. -/
def SYSTEM : List Nat := [83, 89, 83, 84, 69, 77]

/-- `calculate_fee` from `src/src-tauri/src/chain/transaction.rs`:
`max(1000, ceil(amount * 0.0001))`.  The source computes the ceiling through
`f64`; it is modelled as the exact ceiling division by 10000. -/
def calculate_fee (amount : Nat) : Nat := max ((amount + 9999) / 10000) 1000

/-- `Transaction` from `src/src-tauri/src/chain/transaction.rs`. -/
structure Transaction where
  id : List Nat
  sender : List Nat
  receiver : List Nat
  amount : Nat
  shard_id : Nat
  timestamp : Nat
  signature : List Nat
deriving DecidableEq

/-- `ReceiptStatus` from `src/src-tauri/src/chain/receipt.rs`. -/
inductive ReceiptStatus
  | Pending
  | Claimed
  | Reverted
deriving DecidableEq

/-- `Receipt` from `src/src-tauri/src/chain/receipt.rs`. -/
structure Receipt where
  original_tx_id : List Nat
  source_shard : Nat
  target_shard : Nat
  amount : Nat
  receiver : List Nat
  block_hash : List Nat
  merkle_proof : List (List Nat)
  status : ReceiptStatus
deriving DecidableEq

/-- `Block` from `src/src-tauri/src/chain/block.rs`. -/
structure Block where
  index : Nat
  timestamp : Nat
  author : List Nat
  transactions : List Transaction
  previous_hash : List Nat
  hash : List Nat
  start_time_weight : Nat
  vdf_proof : List Nat
  signature : List Nat
  version : Nat
  merkle_root : List Nat
  state_root : List Nat
  nonce : Nat
  vdf_difficulty : Nat
  size : Nat
  shard_id : Nat
  total_fees : Nat
  block_reward : Nat
  total_reward : Nat
deriving DecidableEq

/-- The exact byte sequence hashed by `Block::calculate_hash`
(`src/src-tauri/src/chain/block.rs` lines 88-105): big-endian `index`,
`timestamp`, then the bytes of `author`, `previous_hash`, `vdf_proof`,
`merkle_root`, `state_root`, then big-endian `nonce`, `vdf_difficulty`,
`version` (u32), `total_fees`, `block_reward`, `total_reward`.
`shard_id`, `size`, `start_time_weight`, `signature`, `transactions` and the
stored `hash` are not part of the input. -/
def hashInput (b : Block) : List Nat :=
  toBE8 b.index ++ toBE8 b.timestamp ++ b.author ++ b.previous_hash ++ b.vdf_proof ++
    b.merkle_root ++ b.state_root ++ toBE8 b.nonce ++ toBE8 b.vdf_difficulty ++
    toBE4 b.version ++ toBE8 b.total_fees ++ toBE8 b.block_reward ++ toBE8 b.total_reward

/-- `Block::calculate_hash`: lowercase hex of the SHA-256 of `hashInput`. -/
def calculateHash (b : Block) : List Nat := hexEncode (sha256 (hashInput b))

/-- Bincode-serialized size of a `Transaction` (strings: 8-byte length prefix
plus bytes; `u64`: 8; `u16`: 2). -/
def txBincodeSize (tx : Transaction) : Nat :=
  8 + tx.id.length + 8 + tx.sender.length + 8 + tx.receiver.length + 8 + 2 + 8 +
    8 + tx.signature.length

/-- `Block::calculate_size`: bincode-serialized length of the block, field by
field in declaration order. -/
def calculateSize (b : Block) : Nat :=
  8 + 8 + (8 + b.author.length) +
    (8 + (b.transactions.map txBincodeSize).sum) +
    (8 + b.previous_hash.length) + (8 + b.hash.length) + 8 +
    (8 + b.vdf_proof.length) + (8 + b.signature.length) + 4 +
    (8 + b.merkle_root.length) + (8 + b.state_root.length) + 8 + 8 + 8 + 4 +
    8 + 8 + 8

/-- The proof-stamping done after the block VDF is solved
(`src/src-tauri/src/node/mining.rs` lines 652-654): store the proof,
recompute the hash, recompute the size. -/
def sealBlock (proof : List Nat) (b : Block) : Block :=
  let b1 := { b with vdf_proof := proof }
  let b2 := { b1 with hash := calculateHash b1 }
  { b2 with size := calculateSize b2 }

/-!  VDF scratch-buffer fill (`src/src-tauri/src/consensus/vdf.rs` lines 20-36). -/

/-- The 16 MiB scratch-buffer size of `CentichainVDF::solve`. -/
def VDF_BUFFER_SIZE : Nat := 16 * 1024 * 1024

/-- Number of 32-byte chunks in the scratch buffer (the buffer size is
divisible by 32, so every chunk is full). -/
def VDF_NUM_CHUNKS : Nat := VDF_BUFFER_SIZE / 32

/-- The fill loop of `CentichainVDF::solve`, after `n` chunks have been
written.  Returns the current value of `fill_stream` together with the list of
chunks written so far.  Before the loop `fill_stream = SHA-256(seed)`; each
iteration first rehashes `fill_stream` and then writes it into the buffer. -/
def vdfFill (seed : List Nat) : Nat → List Nat × List (List Nat)
  | 0 => (sha256 seed, [])
  | n + 1 =>
      let p := vdfFill seed n
      let fs := sha256 p.1
      (fs, p.2 ++ [fs])

/-- The scratch buffer contents after the fill phase of
`CentichainVDF::solve`, as the list of its 32-byte chunks;
`seed = SHA-256(challenge)`. -/
def vdfFillChunks (challenge : List Nat) : List (List Nat) :=
  (vdfFill (sha256 challenge) VDF_NUM_CHUNKS).2

/-! Storage state table (`src/src-tauri/src/storage/mod.rs`). -/

/-- The `state` table: address to `u64` balance, as an association list with
distinct keys (a `redb` keyed table). -/
abbrev StateTab := List (List Nat × Nat)

/-- Balance read (`Storage::calculate_balance` semantics: missing key is 0). -/
def stateGet : StateTab → List Nat → Nat
  | [], _ => 0
  | (k, w) :: rest, a => if k = a then w else stateGet rest a

/-- Keyed-table insert: replace the value of an existing key, else append. -/
def stateSet : StateTab → List Nat → Nat → StateTab
  | [], a, v => [(a, v)]
  | (k, w) :: rest, a, v =>
      if k = a then (a, v) :: rest else (k, w) :: stateSet rest a v

/-- Keys of the state table. -/
def stateKeys (s : StateTab) : List (List Nat) := s.map (·.1)

/-- Sum of all balances in the state table. -/
def sumState (s : StateTab) : Nat := (s.map (·.2)).sum

/-- The balance side-effects of one transaction, as applied by
`Storage::save_block` (lines 41-65): a non-`"SYSTEM"` sender is debited
`amount + fee` with saturating arithmetic, then the receiver is credited
`amount` with saturating addition. -/
def applyTx (s : StateTab) (tx : Transaction) : StateTab :=
  let s1 :=
    if tx.sender ≠ SYSTEM then
      stateSet s tx.sender
        (satSub (stateGet s tx.sender) (satAdd tx.amount (calculate_fee tx.amount)))
    else s
  stateSet s1 tx.receiver (satAdd (stateGet s1 tx.receiver) tx.amount)

/-- The state-table effect of `Storage::save_block` on a block body (the block
row insert itself does not touch balances, and no existing-index check is
performed). -/
def saveBlockState (s : StateTab) (b : Block) : StateTab :=
  b.transactions.foldl applyTx s

/-- Checks that applying one transaction hits no saturation: the deduction
does not overflow `u64`, the sender balance covers it, and the receiver
credit does not overflow. -/
def applyTxOk (s : StateTab) (tx : Transaction) : Bool :=
  let fee := calculate_fee tx.amount
  decide (tx.amount + fee ≤ U64MAX) &&
  decide (tx.amount + fee ≤ stateGet s tx.sender) &&
  (let s1 := stateSet s tx.sender (stateGet s tx.sender - (tx.amount + fee))
   decide (stateGet s1 tx.receiver + tx.amount ≤ U64MAX))

/-- Checks that applying a whole list of transactions hits no saturation. -/
def applyTxsOk : StateTab → List Transaction → Bool
  | _, [] => true
  | s, tx :: rest => applyTxOk s tx && applyTxsOk (applyTx s tx) rest

/-! Mempool (`src/src-tauri/src/mempool.rs`): in-memory map `tx_id -> tx`. -/

/-- The mempool map, as an association list with distinct keys. -/
abbrev MempoolTab := List (List Nat × Transaction)

/-- Mempool lookup by transaction id. -/
def mpLookup : MempoolTab → List Nat → Option Transaction
  | [], _ => none
  | (k, tx) :: rest, a => if k = a then some tx else mpLookup rest a

/-- `Mempool::remove_transactions`: remove each id in turn. -/
def removeTransactions (pool : MempoolTab) (ids : List (List Nat)) : MempoolTab :=
  ids.foldl (fun p id => p.filter fun e => decide (e.1 ≠ id)) pool

/-- `Mempool::add_transaction`: reject a duplicate id (returning `none` and
leaving the pool unchanged), otherwise insert. -/
def addTransaction (pool : MempoolTab) (tx : Transaction) : Option MempoolTab :=
  if (pool.map (·.1)).contains tx.id then none else some (pool ++ [(tx.id, tx)])

/-- `Mempool::get_total_pending_spend`: sum of `amount + fee` over pending
transactions whose sender is the given address (and not `"SYSTEM"`). -/
def getTotalPendingSpend (pool : MempoolTab) (address : List Nat) : Nat :=
  (((pool.map (·.2)).filter fun tx =>
      decide (tx.sender = address) && decide (tx.sender ≠ SYSTEM)).map fun tx =>
    satAdd tx.amount (calculate_fee tx.amount)).sum

/-! Validator registry and leader election
(`src/src-tauri/src/consensus/mod.rs`). -/

/-- `NodeState`: one validator-registry entry.  `trust_score` is an `f64` in
the source; it is modelled as an exact rational. -/
structure NodeState where
  peer_id : List Nat
  join_time : Nat
  trust_score : ℚ
  vdf_proof : Option (List Nat)
  is_verified : Bool
  is_active : Bool
  activated_at : Option Nat
  missed_slots : Nat
  addresses : List (List Nat)
deriving DecidableEq

/-- `NodeState::new`: a freshly sighted peer, trust 0.1, unverified,
inactive. -/
def NodeState.new (now : Nat) (pid : List Nat) : NodeState :=
  ⟨pid, now, 1/10, none, false, false, none, 0, []⟩

/-- `NodeState::current_uptime` (saturating subtraction). -/
def NodeState.currentUptime (now : Nat) (n : NodeState) : Nat := now - n.join_time

/-- `NodeState::activate`: idempotent activation stamp. -/
def NodeState.activateAt (now : Nat) (n : NodeState) : NodeState :=
  if n.activated_at.isNone then
    { n with activated_at := some now, is_active := true }
  else n

/-- `NodeState::is_permanently_eligible`. -/
def NodeState.isPermanentlyEligible (n : NodeState) : Bool :=
  n.activated_at.isSome && decide ((1 : ℚ)/100 ≤ n.trust_score)

/-- The `Consensus` aggregate: the registry map `peer_id -> NodeState` (a hash
map in the source, modelled as an association list with distinct keys and
arbitrary order) plus the local peer id.  The VDF engine handle and the
constant `quarantine_duration` field are not consulted by the modelled
operations (`get_quarantine_duration` recomputes from the node count). -/
structure Consensus where
  nodes : List (List Nat × NodeState)
  local_peer_id : Option (List Nat)

/-- Registry lookup (`self.nodes.get(peer_id)`). -/
def lookupNode : List (List Nat × NodeState) → List Nat → Option NodeState
  | [], _ => none
  | (k, n) :: rest, pid => if k = pid then some n else lookupNode rest pid

/-- Registry membership (`self.nodes.contains_key`). -/
def containsNode (reg : List (List Nat × NodeState)) (pid : List Nat) : Bool :=
  reg.any fun p => decide (p.1 = pid)

/-- In-place update of one registry entry (`self.nodes.get_mut`); a no-op for
an absent key. -/
def updateNode (reg : List (List Nat × NodeState)) (pid : List Nat)
    (f : NodeState → NodeState) : List (List Nat × NodeState) :=
  reg.map fun p => if p.1 = pid then (p.1, f p.2) else p

/-- `Consensus::get_quarantine_duration`: 300 s solo, else
`min(300 + 3600 * count, 72 h)`. -/
def getQuarantineDuration (count : Nat) : Nat :=
  if count ≤ 1 then 300 else min (300 + count * 3600) (72 * 3600)

/-- `Consensus::calculate_active_shards`: `max(1, count / 50)`, truncated to
`u16` by the source's cast. -/
def calculateActiveShards (count : Nat) : Nat :=
  if count < 50 then 1 else (count / 50) % 65536

/-- `Consensus::get_assigned_shard`:
`(h[0] << 8 | h[1]) % active_shards` with `h = SHA-256(peer_id || epoch_le)`. -/
def getAssignedShard (count : Nat) (pid : List Nat) (epoch : Nat) : Nat :=
  let h := sha256 (pid ++ toLE8 epoch)
  (h.getD 0 0 * 256 + h.getD 1 0) % calculateActiveShards count

/-- `Consensus::is_eligible_for_leadership`: grandfather clause, solo
bootstrap, or verified + quarantine complete + good trust. -/
def isEligibleForLeadership (now : Nat) (c : Consensus) (pid : List Nat) : Bool :=
  match lookupNode c.nodes pid with
  | none => false
  | some node =>
      if node.isPermanentlyEligible then true
      else if c.nodes.length = 1 then true
      else
        node.is_verified &&
        decide (getQuarantineDuration c.nodes.length ≤ node.currentUptime now) &&
        decide ((1 : ℚ)/100 ≤ node.trust_score)

/-- `EPOCH_DURATION = 600`. -/
def EPOCH_DURATION : Nat := 600

/-- `SLOT_DURATION = 2`. -/
def SLOT_DURATION : Nat := 2

/-- Byte-wise lexicographic order on byte strings: Rust's `Ord` for `String`,
used by `eligible_validators.sort()`. -/
def lexLe : List Nat → List Nat → Bool
  | [], _ => true
  | _ :: _, [] => false
  | a :: as_, b :: bs =>
      if a < b then true else if b < a then false else lexLe as_ bs

/-- `lexLe` as a relation, for `List.insertionSort`. -/
def lexLeR (a b : List Nat) : Prop := lexLe a b = true

instance : DecidableRel lexLeR := fun _ _ => inferInstanceAs (Decidable (_ = true))

/-- The eligible-validator filter of `Consensus::get_shard_leader` (lines
346-356): peers assigned to the shard for the given epoch that are eligible
for leadership. -/
def eligibleValidators (now : Nat) (c : Consensus) (shard_id epoch : Nat) :
    List (List Nat) :=
  (c.nodes.filter fun p =>
      decide (getAssignedShard c.nodes.length p.1 epoch = shard_id) &&
      isEligibleForLeadership now c p.1).map (·.1)

/-- The candidate list of `Consensus::get_shard_leader` after the bootstrap
fallback (lines 358-369): when no one is eligible and fewer than two nodes
exist, every registered peer is a candidate. -/
def leaderCandidates (now : Nat) (c : Consensus) (shard_id epoch : Nat) :
    List (List Nat) :=
  let elig := eligibleValidators now c shard_id epoch
  if elig.isEmpty then
    if c.nodes.length < 2 then c.nodes.map (·.1) else []
  else elig

/-- `Consensus::get_shard_leader` (lines 343-398): filter the registry to the
eligible validators of the shard for the slot's epoch, fall back to all nodes
when empty and fewer than two nodes exist, sort lexicographically, and pick
index `u64_le(SHA-256(shard_be || epoch_be || slot_be)[0..8]) % len`. -/
def getShardLeader (now : Nat) (c : Consensus) (shard_id : Nat) (slot : Nat) :
    Option (List Nat) :=
  let epoch := slot / (EPOCH_DURATION / SLOT_DURATION)
  let cands := leaderCandidates now c shard_id epoch
  if cands.isEmpty then none
  else
    let sorted := cands.insertionSort lexLeR
    let digest := sha256 (toBE2 shard_id ++ toBE8 epoch ++ toBE8 slot)
    let r := fromLEBytes (digest.take 8)
    some (sorted.getD (r % sorted.length) [])

/-! Registry mutators covered by the trust-score invariant. -/

/-- `Consensus::register_node`. -/
def registerNode (now : Nat) (c : Consensus) (pid : List Nat) : Consensus :=
  if containsNode c.nodes pid then c
  else { c with nodes := c.nodes ++ [(pid, NodeState.new now pid)] }

/-- `Consensus::slash_node`: halve the trust score, floor at 0.01 with
demotion. -/
def slashNode (c : Consensus) (pid : List Nat) : Consensus :=
  { c with
    nodes := updateNode c.nodes pid fun n =>
      if n.trust_score * (1/2) < 1/100 then
        { n with missed_slots := n.missed_slots + 1, trust_score := 1/100,
                 is_active := false, activated_at := none }
      else
        { n with missed_slots := n.missed_slots + 1,
                 trust_score := n.trust_score * (1/2) } }

/-- `Consensus::reward_node`: `trust = min(1.0, trust * 1.1)`. -/
def rewardNode (c : Consensus) (pid : List Nat) : Consensus :=
  { c with
    nodes := updateNode c.nodes pid fun n =>
      { n with trust_score := min (n.trust_score * (11/10)) 1 } }

/-- `Consensus::verify_peer`.  `vdfOk` stands for the outcome of
`self.vdf.verify(challenge, proof)`, which touches no trust score either
way. -/
def verifyPeer (c : Consensus) (pid proof : List Nat) (vdfOk : Bool) : Consensus :=
  if vdfOk then
    { c with
      nodes := updateNode c.nodes pid fun n =>
        { n with is_verified := true, vdf_proof := some proof } }
  else c

/-- `Consensus::mark_peer_active` (lines 405-428). -/
def markPeerActive (now : Nat) (c : Consensus) (pid : List Nat) : Consensus :=
  match lookupNode c.nodes pid with
  | some _ =>
      { c with
        nodes := updateNode c.nodes pid fun n =>
          if n.activated_at.isNone then
            { n.activateAt now with
              is_verified := true,
              trust_score := min (n.trust_score * (21/20)) 1 }
          else n }
  | none =>
      { c with
        nodes := c.nodes ++
          [(pid, { (NodeState.new now pid).activateAt now with
                    is_verified := true, trust_score := 1 })] }

/-- `Consensus::update_active_status` (lines 244-283). -/
def updateActiveStatus (now : Nat) (c : Consensus) : Consensus :=
  let count := c.nodes.length
  let q := getQuarantineDuration count
  { c with
    nodes := c.nodes.map fun p =>
      let n := p.2
      if n.trust_score < 1/100 then
        (p.1, if n.is_active then { n with is_active := false, activated_at := none } else n)
      else if n.activated_at.isSome then p
      else if count = 1 || (n.is_verified && decide (q ≤ n.currentUptime now)) then
        (p.1, n.activateAt now)
      else p }

/-- `Consensus::set_local_peer_id`: record the id and self-register with
trust 1.0, verified. -/
def setLocalPeerId (now : Nat) (c : Consensus) (pid : List Nat) : Consensus :=
  { nodes :=
      if containsNode c.nodes pid then c.nodes
      else c.nodes ++
        [(pid, { NodeState.new now pid with is_verified := true, trust_score := 1 })],
    local_peer_id := some pid }

/-- `Consensus::force_activate_local`. -/
def forceActivateLocal (now : Nat) (c : Consensus) : Consensus :=
  match c.local_peer_id with
  | some pid =>
      { c with
        nodes := updateNode c.nodes pid fun n =>
          { n.activateAt now with is_verified := true, trust_score := 1 } }
  | none => c

/-- The registry operations quantified over by the trust-score invariant. -/
inductive RegOp
  | register (pid : List Nat)
  | slash (pid : List Nat)
  | reward (pid : List Nat)
  | verify (pid proof : List Nat) (vdfOk : Bool)
  | markActive (pid : List Nat)
  | updateStatus
  | forceActivate
  | setLocal (pid : List Nat)

/-- Dispatch one registry operation. -/
def applyRegOp (now : Nat) (c : Consensus) : RegOp → Consensus
  | .register pid => registerNode now c pid
  | .slash pid => slashNode c pid
  | .reward pid => rewardNode c pid
  | .verify pid proof vdfOk => verifyPeer c pid proof vdfOk
  | .markActive pid => markPeerActive now c pid
  | .updateStatus => updateActiveStatus now c
  | .forceActivate => forceActivateLocal now c
  | .setLocal pid => setLocalPeerId now c pid

/-- The trust-score bounds invariant: every registry entry has
`trust_score ∈ [0.01, 1.0]`. -/
def TrustInv (c : Consensus) : Prop :=
  ∀ p ∈ c.nodes, (1 : ℚ)/100 ≤ p.2.trust_score ∧ p.2.trust_score ≤ 1

instance (c : Consensus) : Decidable (TrustInv c) :=
  inferInstanceAs (Decidable (∀ p ∈ c.nodes, _ ∧ _))

/-! Block production (`src/src-tauri/src/node/mining.rs`). -/

/-- `MAX_TXS_PER_BLOCK`. -/
def MAX_TXS_PER_BLOCK : Nat := 3000

/-- `MAX_BLOCK_SIZE`. -/
def MAX_BLOCK_SIZE : Nat := 1500000

/-- `GENESIS_SUPPLY = 5_000_000 * 10^6`. -/
def GENESIS_SUPPLY : Nat := 5000000 * 1000000

/-- `INITIAL_REWARD`. -/
def INITIAL_REWARD : Nat := 126839

/-- `HALVING_INTERVAL`. -/
def HALVING_INTERVAL : Nat := 63072000

/-- `calculate_mining_reward` from `src/src-tauri/src/chain/block.rs`. -/
def calculateMiningReward (index : Nat) : Nat :=
  if index = 0 then GENESIS_SUPPLY
  else if 64 ≤ index / HALVING_INTERVAL then 0
  else INITIAL_REWARD >>> (index / HALVING_INTERVAL)

/-- The byte string `"genesis"`. -/
def GENESIS_BYTES : List Nat := [103, 101, 110, 101, 115, 105, 115]

/-- The byte string `"reward"`. -/
def REWARD_BYTES : List Nat := [114, 101, 119, 97, 114, 100]

/-- The byte string `"pending"`. -/
def PENDING_BYTES : List Nat := [112, 101, 110, 100, 105, 110, 103]

/-- The byte string `"sig"`. -/
def SIG_BYTES : List Nat := [115, 105, 103]

/-- `create_coinbase_tx` (`mining.rs` lines 705-738).  `uuid` stands for the
freshly generated transaction id, `now` for the wall-clock timestamp. -/
def createCoinbaseTx (uuid : List Nat) (now : Nat) (receiver : List Nat)
    (block_index block_reward total_fees : Nat) : Transaction :=
  if block_index = 0 then
    { id := GENESIS_BYTES, sender := SYSTEM, receiver := receiver,
      amount := block_reward, shard_id := 0, timestamp := now,
      signature := GENESIS_BYTES }
  else
    { id := uuid, sender := SYSTEM, receiver := receiver,
      amount := block_reward + total_fees, shard_id := 0, timestamp := now,
      signature := REWARD_BYTES }

/-- The cross-shard receipt emitted while collecting a transaction. -/
def mkPendingReceipt (tx : Transaction) (source target : Nat) : Receipt :=
  { original_tx_id := tx.id, source_shard := source, target_shard := target,
    amount := tx.amount, receiver := tx.receiver, block_hash := PENDING_BYTES,
    merkle_proof := [], status := .Pending }

/-- The loop body of `collect_shard_transactions` (`mining.rs` lines
752-795): skip foreign-shard transactions, break on the count or size limit,
otherwise emit a cross-shard receipt when needed and append the
transaction. -/
def collectGo (count my_shard : Nat) :
    List Transaction → List Transaction → List Receipt → Nat →
    List Transaction × List Receipt
  | [], acc, recs, _ => (acc, recs)
  | tx :: rest, acc, recs, size =>
      if tx.shard_id ≠ my_shard then collectGo count my_shard rest acc recs size
      else if MAX_TXS_PER_BLOCK ≤ acc.length then (acc, recs)
      else if MAX_BLOCK_SIZE < size + 300 then (acc, recs)
      else
        let target := getAssignedShard count tx.receiver 0
        let recs' :=
          if target ≠ my_shard then recs ++ [mkPendingReceipt tx my_shard target]
          else recs
        collectGo count my_shard rest (acc ++ [tx]) recs' (size + 300)

/-- `collect_shard_transactions` (`mining.rs` lines 741-798): the body starts
with the coinbase and an approximate size of 300 bytes.  `count` is the
registry size, used by `get_assigned_shard` for receipt routing. -/
def collectShardTransactions (count : Nat) (coinbase : Transaction)
    (pending : List Transaction) (my_shard : Nat) :
    List Transaction × List Receipt :=
  collectGo count my_shard pending [coinbase] [] 300

/-- The `total_fees` computed by the production loop (`mining.rs` lines
589-592): the fee sum over the whole pending snapshot. -/
def minedTotalFees (pending : List Transaction) : Nat :=
  (pending.map fun tx => calculate_fee tx.amount).sum

/-- The `block_reward` computed by the production loop (`mining.rs` lines
583-587). -/
def minedBlockReward (target_idx : Nat) : Nat :=
  if target_idx = 0 then GENESIS_SUPPLY else calculateMiningReward target_idx

/-- The transaction body of a produced block (`mining.rs` lines 594-605):
coinbase first, then the shard-filtered pending transactions. -/
def minedBlockTxs (count : Nat) (uuid : List Nat) (now : Nat)
    (author : List Nat) (target_idx : Nat) (pending : List Transaction)
    (my_shard : Nat) : List Transaction :=
  (collectShardTransactions count
      (createCoinbaseTx uuid now author target_idx (minedBlockReward target_idx)
        (minedTotalFees pending))
      pending my_shard).1

/-- The transaction ids removed from the mempool after a block is published
(`mining.rs` line 681): the ids of the whole pending snapshot. -/
def minedTxIds (pending : List Transaction) : List (List Nat) :=
  pending.map (·.id)

/-! `submit_transaction` (`src/src-tauri/src/commands/chain.rs` lines
121-202). -/

/-- The rejection reasons of `submit_transaction`, in source order. -/
inductive SubmitError
  | notConnected
  | invalidAddress
  | noWallet
  | selfSend
  | insufficientFunds
  | duplicateTx
deriving DecidableEq

/-- `submit_transaction`: returns the submission outcome together with the
resulting mempool.  `parseOk` stands for `receiver.parse::<libp2p::PeerId>()`
succeeding (an external library call, modelled as an arbitrary predicate);
`balance` stands for `storage.calculate_balance(wallet.address)`; `count` is
the registry size used by `get_assigned_shard`; `uuid` and `now` stand for
the generated id and timestamp. -/
def submitTransaction (parseOk : List Nat → Bool) (count peer_count : Nat)
    (wallet : Option (List Nat)) (balance : Nat) (pool : MempoolTab)
    (uuid : List Nat) (now : Nat) (receiver : List Nat) (amount : Nat) :
    Except SubmitError (List Nat) × MempoolTab :=
  if peer_count = 0 then (.error .notConnected, pool)
  else if ¬ parseOk receiver then (.error .invalidAddress, pool)
  else
    match wallet with
    | none => (.error .noWallet, pool)
    | some address =>
        if receiver = address then (.error .selfSend, pool)
        else
          let dynamic_fee := calculate_fee amount
          let pending_spend := getTotalPendingSpend pool address
          let effective_balance := satSub balance pending_spend
          let total_required := satAdd amount dynamic_fee
          if effective_balance < total_required then
            (.error .insufficientFunds, pool)
          else
            let tx : Transaction :=
              { id := uuid, sender := address, receiver := receiver,
                amount := amount, shard_id := getAssignedShard count address 0,
                timestamp := now, signature := SIG_BYTES }
            match addTransaction pool tx with
            | none => (.error .duplicateTx, pool)
            | some pool' => (.ok uuid, pool')

/-- 2^64, the modulus of `u64` arithmetic. -/
def U64MOD : Nat := 18446744073709551616

/-- Well-formedness of a block's machine integers: every `u64` field is below
2^64 and the `u32` version below 2^32. -/
def BlockWF (b : Block) : Prop :=
  b.index < U64MOD ∧ b.timestamp < U64MOD ∧ b.nonce < U64MOD ∧
  b.vdf_difficulty < U64MOD ∧ b.version < U32MOD ∧ b.total_fees < U64MOD ∧
  b.block_reward < U64MOD ∧ b.total_reward < U64MOD

instance (b : Block) : Decidable (BlockWF b) :=
  inferInstanceAs (Decidable (_ ∧ _ ∧ _ ∧ _ ∧ _ ∧ _ ∧ _ ∧ _))

/-- Agreement of two blocks on exactly the thirteen fields hashed by
`Block::calculate_hash`. -/
def hashedFieldsEq (a b : Block) : Prop :=
  a.index = b.index ∧ a.timestamp = b.timestamp ∧ a.author = b.author ∧
  a.previous_hash = b.previous_hash ∧ a.vdf_proof = b.vdf_proof ∧
  a.merkle_root = b.merkle_root ∧ a.state_root = b.state_root ∧
  a.nonce = b.nonce ∧ a.vdf_difficulty = b.vdf_difficulty ∧
  a.version = b.version ∧ a.total_fees = b.total_fees ∧
  a.block_reward = b.block_reward ∧ a.total_reward = b.total_reward

instance (a b : Block) : Decidable (hashedFieldsEq a b) :=
  inferInstanceAs (Decidable (_ ∧ _ ∧ _ ∧ _ ∧ _ ∧ _ ∧ _ ∧ _ ∧ _ ∧ _ ∧ _ ∧ _ ∧ _))

/-! Concrete fixtures used by witnesses and counterexamples. -/

/-- A small well-formed block fixture. -/
def cBlock : Block :=
  { index := 3, timestamp := 40, author := [97], transactions := [],
    previous_hash := [112], hash := [], start_time_weight := 100,
    vdf_proof := [118], signature := [], version := 1, merkle_root := [109],
    state_root := [48], nonce := 9, vdf_difficulty := 100, size := 0,
    shard_id := 0, total_fees := 1000, block_reward := 5, total_reward := 1005 }

/-- A user transaction fixture: 5 units from address `"a"` to `"b"`,
shard 0. -/
def cTxA : Transaction :=
  { id := [1], sender := [97], receiver := [98], amount := 5, shard_id := 0,
    timestamp := 0, signature := [] }

/-- A user transaction fixture on shard 1 (id `[2]`, sender `"c"`). -/
def cTxB : Transaction :=
  { id := [2], sender := [99], receiver := [100], amount := 5, shard_id := 1,
    timestamp := 0, signature := [] }

/-- A state table holding 10000 units at address `"a"`. -/
def cState : StateTab := [([97], 10000)]

/-- A block whose body is the single non-`"SYSTEM"` transaction `cTxA`. -/
def cBlockTxA : Block := { cBlock with transactions := [cTxA] }

/-- A registry entry fixture: activated, verified, trust 1. -/
def cNode (pid : List Nat) : NodeState :=
  { peer_id := pid, join_time := 0, trust_score := 1, vdf_proof := none,
    is_verified := true, is_active := true, activated_at := some 0,
    missed_slots := 0, addresses := [] }

/-- A two-node consensus fixture. -/
def cConsAB : Consensus :=
  { nodes := [([97], cNode [97]), ([98], cNode [98])], local_peer_id := none }

/-- The same registry contents in the opposite iteration order. -/
def cConsBA : Consensus :=
  { nodes := [([98], cNode [98]), ([97], cNode [97])], local_peer_id := none }

/-! ### Theorems -/

/-- FIPS 180-4 test vector: SHA-256 of the empty message. -/
example :
    sha256 [] =
      [227, 176, 196, 66, 152, 252, 28, 20, 154, 251, 244, 200, 153, 111, 185, 36,
       39, 174, 65, 228, 100, 155, 147, 76, 164, 149, 153, 27, 120, 82, 184, 85] := by
  decide

/-- FIPS 180-4 test vector: SHA-256 of `"abc"`. -/
example :
    sha256 [97, 98, 99] =
      [186, 120, 22, 191, 143, 1, 207, 234, 65, 65, 64, 222, 93, 174, 34, 35,
       176, 3, 97, 163, 150, 23, 122, 156, 180, 16, 255, 97, 242, 0, 21, 173] := by
  decide

theorem vdfFill_fst (seed : List Nat) (n : Nat) :
    (vdfFill seed n).1 = sha256^[n + 1] seed := by
  induction n with
  | zero => simp [vdfFill]
  | succ n ih => simp [vdfFill, ih, Function.iterate_succ_apply']

theorem vdfFill_snd_length (seed : List Nat) (n : Nat) :
    (vdfFill seed n).2.length = n := by
  induction n with
  | zero => simp [vdfFill]
  | succ n ih => simp [vdfFill, ih]

theorem vdfFill_snd_getD (seed : List Nat) {k n : Nat} (h : k < n) :
    (vdfFill seed n).2.getD k [] = sha256^[k + 2] seed := by
  induction n with
  | zero => omega
  | succ n ih =>
      have hsnd : (vdfFill seed (n + 1)).2 =
          (vdfFill seed n).2 ++ [sha256 (vdfFill seed n).1] := by
        simp [vdfFill]
      rcases Nat.lt_succ_iff_lt_or_eq.1 h with h' | h'
      · have hlen : k < (vdfFill seed n).2.length := by
          rw [vdfFill_snd_length]; exact h'
        rw [hsnd, List.getD_append _ _ _ _ hlen]
        exact ih h'
      · subst h'
        have hlen : (vdfFill seed k).2.length = k := vdfFill_snd_length seed k
        rw [hsnd, List.getD, List.get?_append_right (by omega), hlen]
        simp [vdfFill_fst, Function.iterate_succ_apply']

/-- C3 (amended): after `seed = SHA-256(challenge)`, the fill loop writes the
stream `SHA-256(SHA-256(seed)), SHA-256^3(seed), ...` — chunk `n` of the
16 MiB buffer holds the `(n+2)`-fold iterated SHA-256 of the seed (not the
`n`-fold one, and the first chunk is not the seed itself). -/
theorem vdf_buffer_chunk_is_iterated_hash (challenge : List Nat) (n : Nat)
    (h : n < VDF_NUM_CHUNKS) :
    (vdfFillChunks challenge).length = VDF_NUM_CHUNKS ∧
    (vdfFillChunks challenge).getD n [] = sha256^[n + 2] (sha256 challenge) := by
  exact ⟨vdfFill_snd_length _ _, vdfFill_snd_getD _ h⟩

theorem vdf_buffer_chunk_witness :
    (vdfFillChunks []).getD 0 [] = sha256^[2] (sha256 []) :=
  (vdf_buffer_chunk_is_iterated_hash [] 0 (by decide)).2

set_option maxRecDepth 10000 in
/-- C3 counterexample: for the empty challenge, the first 32-byte chunk of the
buffer differs from `seed = SHA-256(challenge)`; the stream does not start at
the seed. -/
theorem vdf_buffer_first_chunk_not_seed :
    (vdfFillChunks []).getD 0 [] ≠ sha256 [] := by
  unfold vdfFillChunks
  rw [vdfFill_snd_getD _ (by decide : 0 < VDF_NUM_CHUNKS)]
  decide

set_option maxRecDepth 10000 in
/-- C10: `Storage::save_block` applies balance side-effects unconditionally —
applying the same block twice credits the receiver twice (`save_block` is not
idempotent on the state table).  The fixture block holds one positive-amount
transaction from `"a"` (balance 10000) to `"b"`. -/
theorem save_block_not_idempotent :
    stateGet (saveBlockState cState cBlockTxA) [98] = 5 ∧
    stateGet (saveBlockState (saveBlockState cState cBlockTxA) cBlockTxA) [98] = 10 ∧
    saveBlockState (saveBlockState cState cBlockTxA) cBlockTxA ≠
      saveBlockState cState cBlockTxA := by
  decide

theorem stateGet_le_sumState (s : StateTab) (a : List Nat) :
    stateGet s a ≤ sumState s := by
  induction s with
  | nil => simp [stateGet, sumState]
  | cons p rest ih =>
      obtain ⟨k, w⟩ := p
      simp only [stateGet, sumState, List.map_cons, List.sum_cons]
      split
      · omega
      · simp only [sumState] at ih; omega

theorem sumState_stateSet (s : StateTab) (a : List Nat) (v : Nat) :
    sumState (stateSet s a v) + stateGet s a = sumState s + v := by
  induction s with
  | nil => simp [stateSet, stateGet, sumState]
  | cons p rest ih =>
      obtain ⟨k, w⟩ := p
      by_cases h : k = a
      · simp [stateSet, stateGet, sumState, h]; omega
      · simp only [stateSet, stateGet, sumState, List.map_cons, List.sum_cons,
          if_neg h]
        simp only [sumState] at ih; omega

theorem applyTx_sumState (s : StateTab) (tx : Transaction)
    (hs : tx.sender ≠ SYSTEM) (hok : applyTxOk s tx = true) :
    sumState (applyTx s tx) + calculate_fee tx.amount = sumState s := by
  simp only [applyTxOk, Bool.and_eq_true, decide_eq_true_eq] at hok
  obtain ⟨⟨hover, hbal⟩, hrecv⟩ := hok
  simp only [applyTx, if_pos hs]
  have hsat : satAdd tx.amount (calculate_fee tx.amount) =
      tx.amount + calculate_fee tx.amount := by
    simp [satAdd]; omega
  rw [hsat]
  set d := tx.amount + calculate_fee tx.amount with hd
  set s1 := stateSet s tx.sender (satSub (stateGet s tx.sender) d) with hs1
  have h1 : sumState s1 + stateGet s tx.sender =
      sumState s + satSub (stateGet s tx.sender) d := sumState_stateSet ..
  have hsat2 : satAdd (stateGet s1 tx.receiver) tx.amount =
      stateGet s1 tx.receiver + tx.amount := by
    simp only [satSub, hs1] at hrecv ⊢
    simp [satAdd]; omega
  rw [hsat2]
  have h2 : sumState (stateSet s1 tx.receiver (stateGet s1 tx.receiver + tx.amount)) +
      stateGet s1 tx.receiver = sumState s1 + (stateGet s1 tx.receiver + tx.amount) :=
    sumState_stateSet ..
  have h3 : stateGet s tx.sender ≤ sumState s := stateGet_le_sumState ..
  simp only [satSub] at h1
  omega

/-- The cumulative form of C2's amended statement over a transaction list. -/
theorem applyTxs_sumState (txs : List Transaction) :
    ∀ s : StateTab, (∀ tx ∈ txs, tx.sender ≠ SYSTEM) →
      applyTxsOk s txs = true →
      sumState (txs.foldl applyTx s) + (txs.map fun tx => calculate_fee tx.amount).sum =
        sumState s := by
  induction txs with
  | nil => intro s _ _; simp
  | cons tx rest ih =>
      intro s hsys hok
      simp only [applyTxsOk, Bool.and_eq_true] at hok
      have h1 := applyTx_sumState s tx (hsys tx (by simp)) hok.1
      have h2 := ih (applyTx s tx) (fun t ht => hsys t (by simp [ht])) hok.2
      simp only [List.foldl_cons, List.map_cons, List.sum_cons]
      omega

/-- C2 (amended): appending a block whose transactions all have a
non-`"SYSTEM"` sender, when no saturating operation rounds, decreases the
total of all balances by exactly the sum of the transaction fees (the fee is
debited from each sender but credited to no one by `save_block`); the total
is not preserved. -/
theorem save_block_sum_decreases_by_fees (s : StateTab) (b : Block)
    (hsys : ∀ tx ∈ b.transactions, tx.sender ≠ SYSTEM)
    (hok : applyTxsOk s b.transactions = true) :
    sumState (saveBlockState s b) +
      (b.transactions.map fun tx => calculate_fee tx.amount).sum = sumState s :=
  applyTxs_sumState b.transactions s hsys hok

set_option maxRecDepth 10000 in
theorem save_block_sum_witness :
    sumState (saveBlockState cState cBlockTxA) + 1000 = sumState cState :=
  save_block_sum_decreases_by_fees cState cBlockTxA (by decide) (by decide)

set_option maxRecDepth 10000 in
/-- C2 counterexample: a block with a single non-`"SYSTEM"` transaction
(amount 5, fee 1000, sender balance 10000 — no saturation anywhere) changes
the balance total from 10000 to 9000: the amount debited from the sender
(1005) differs from the amount credited to the receiver (5). -/
theorem save_block_does_not_conserve_sum :
    (∀ tx ∈ cBlockTxA.transactions, tx.sender ≠ SYSTEM) ∧
    applyTxsOk cState cBlockTxA.transactions = true ∧
    sumState (saveBlockState cState cBlockTxA) ≠ sumState cState := by
  decide

/-- The collection loop only ever appends to the accumulated body, and the
appended transactions form a sublist of the pending snapshot. -/
theorem collectGo_fst (count my : Nat) :
    ∀ (pend acc : List Transaction) (recs : List Receipt) (size : Nat),
      ∃ ext, (collectGo count my pend acc recs size).1 = acc ++ ext ∧
        ext.Sublist pend := by
  intro pend
  induction pend with
  | nil =>
      intro acc recs size
      exact ⟨[], by simp [collectGo], List.Sublist.refl _⟩
  | cons tx rest ih =>
      intro acc recs size
      by_cases h1 : tx.shard_id ≠ my
      · obtain ⟨ext, he, hs⟩ := ih acc recs size
        exact ⟨ext, by rw [collectGo, if_pos h1]; exact he, hs.cons tx⟩
      · by_cases h2 : MAX_TXS_PER_BLOCK ≤ acc.length
        · refine ⟨[], ?_, List.nil_sublist _⟩
          rw [collectGo, if_neg h1, if_pos h2]; simp
        · by_cases h3 : MAX_BLOCK_SIZE < size + 300
          · refine ⟨[], ?_, List.nil_sublist _⟩
            rw [collectGo, if_neg h1, if_neg h2, if_pos h3]; simp
          · obtain ⟨ext, he, hs⟩ := ih (acc ++ [tx]) _ (size + 300)
            refine ⟨tx :: ext, ?_, hs.cons₂ tx⟩
            rw [collectGo, if_neg h1, if_neg h2, if_neg h3]
            rw [he]; simp

/-- C5 (amended): the first transaction of every produced block body is the
coinbase with sender `"SYSTEM"` and receiver the block author; its amount is
`block_reward + total_fees` for every block index except 0, where
`create_coinbase_tx` mints `block_reward` alone and ignores the fees. -/
theorem produced_block_coinbase_first (count : Nat) (uuid : List Nat) (now : Nat)
    (author : List Nat) (target_idx : Nat) (pending : List Transaction)
    (my_shard : Nat) :
    (minedBlockTxs count uuid now author target_idx pending my_shard).head? =
      some (createCoinbaseTx uuid now author target_idx
        (minedBlockReward target_idx) (minedTotalFees pending)) ∧
    (createCoinbaseTx uuid now author target_idx (minedBlockReward target_idx)
        (minedTotalFees pending)).sender = SYSTEM ∧
    (createCoinbaseTx uuid now author target_idx (minedBlockReward target_idx)
        (minedTotalFees pending)).receiver = author ∧
    (createCoinbaseTx uuid now author target_idx (minedBlockReward target_idx)
        (minedTotalFees pending)).amount =
      (if target_idx = 0 then minedBlockReward target_idx
       else minedBlockReward target_idx + minedTotalFees pending) := by
  refine ⟨?_, ?_, ?_, ?_⟩
  · obtain ⟨ext, he, -⟩ :=
      collectGo_fst count my_shard pending
        [createCoinbaseTx uuid now author target_idx (minedBlockReward target_idx)
          (minedTotalFees pending)] [] 300
    simp only [minedBlockTxs, collectShardTransactions]
    rw [he]; simp
  · unfold createCoinbaseTx; split <;> rfl
  · unfold createCoinbaseTx; split <;> rfl
  · unfold createCoinbaseTx; split <;> simp_all

set_option maxRecDepth 10000 in
/-- C5 counterexample: at block index 0 with a non-empty pending snapshot
(total fees 1000), the produced coinbase amount is the bare block reward, not
`block_reward + total_fees`. -/
theorem genesis_coinbase_ignores_fees :
    ((minedBlockTxs 1 [9] 7 [99] 0 [cTxA] 0).head?.map (·.amount)) =
      some (minedBlockReward 0) ∧
    minedBlockReward 0 ≠ minedBlockReward 0 + minedTotalFees [cTxA] := by
  decide

/-- C6 (amended): the `total_fees` carried by a produced block is the fee sum
over the whole pending snapshot — strictly more than the fee sum over the
transactions actually selected into the block whenever some pending
transaction is filtered out; the selected (non-coinbase) fee sum never
exceeds it. -/
theorem total_fees_summed_over_all_pending (count : Nat) (coinbase : Transaction)
    (pending : List Transaction) (my_shard : Nat) :
    minedTotalFees pending = (pending.map fun tx => calculate_fee tx.amount).sum ∧
    (((collectShardTransactions count coinbase pending my_shard).1.drop 1).map
        fun tx => calculate_fee tx.amount).sum ≤ minedTotalFees pending := by
  constructor
  · rfl
  · obtain ⟨ext, he, hs⟩ := collectGo_fst count my_shard pending [coinbase] [] 300
    simp only [collectShardTransactions]
    rw [he]
    simp only [List.singleton_append, List.drop_succ_cons, List.drop_zero]
    exact ((hs.map fun tx => calculate_fee tx.amount).sum_le_sum
      (fun x _ => Nat.zero_le x))

set_option maxRecDepth 10000 in
/-- C6 counterexample: a pending transaction on shard 1 is filtered out of a
shard-0 block, yet its fee (1000) is included in the block's `total_fees`,
which therefore differs from the fee sum over the selected transactions
(0). -/
theorem total_fees_count_filtered_out_txs :
    minedTotalFees [cTxB] ≠
      (((collectShardTransactions 1 cTxA [cTxB] 0).1.drop 1).map
          fun tx => calculate_fee tx.amount).sum := by
  decide

theorem mpLookup_filter_ne (pool : MempoolTab) (tid k : List Nat) :
    mpLookup (pool.filter fun e => decide (e.1 ≠ tid)) k =
      if k = tid then none else mpLookup pool k := by
  induction pool with
  | nil => simp [mpLookup]
  | cons p rest ih =>
      obtain ⟨k', tx⟩ := p
      simp only [List.filter_cons]
      by_cases h1 : k' = tid
      · rw [if_neg (by simp [h1]), ih]
        by_cases h2 : k = tid
        · simp [h2]
        · have hne : ¬ (k' = k) := fun h => h2 (by rw [← h, h1])
          simp only [mpLookup, if_neg h2, if_neg hne]
      · rw [if_pos (by simpa using h1)]
        simp only [mpLookup]
        by_cases h2 : k' = k
        · have hk : ¬ (k = tid) := fun h => h1 (h2.trans h)
          simp only [if_pos h2, if_neg hk, mpLookup, if_pos h2]
        · rw [if_neg h2, ih]
          by_cases h3 : k = tid
          · simp [h3]
          · simp only [mpLookup, if_neg h3, if_neg h2]

theorem removeTransactions_lookup :
    ∀ (ids : List (List Nat)) (pool : MempoolTab) (k : List Nat),
      mpLookup (removeTransactions pool ids) k =
        if k ∈ ids then none else mpLookup pool k := by
  intro ids
  induction ids with
  | nil => intro pool k; simp [removeTransactions]
  | cons id ids ih =>
      intro pool k
      have hstep : removeTransactions pool (id :: ids) =
          removeTransactions (pool.filter fun e => decide (e.1 ≠ id)) ids := by
        simp [removeTransactions]
      rw [hstep, ih, mpLookup_filter_ne]
      by_cases h1 : k ∈ ids
      · simp [h1]
      · by_cases h2 : k = id <;> simp [h1, h2]

/-- C7 (amended): after a block is produced and published, the ids of the
*entire* pending snapshot are removed from the mempool — including every
transaction filtered out of the block (foreign shard, count or size limit);
only transactions absent from the snapshot survive. -/
theorem mined_snapshot_removed_from_mempool (pool : MempoolTab)
    (pending : List Transaction) :
    (∀ tx ∈ pending,
      mpLookup (removeTransactions pool (minedTxIds pending)) tx.id = none) ∧
    (∀ k : List Nat, k ∉ minedTxIds pending →
      mpLookup (removeTransactions pool (minedTxIds pending)) k = mpLookup pool k) := by
  constructor
  · intro tx htx
    have hmem : tx.id ∈ minedTxIds pending := by
      simp only [minedTxIds]
      exact List.mem_map.2 ⟨tx, htx, rfl⟩
    rw [removeTransactions_lookup, if_pos hmem]
  · intro k hk
    rw [removeTransactions_lookup, if_neg hk]

set_option maxRecDepth 10000 in
theorem mined_snapshot_removed_witness :
    mpLookup (removeTransactions [(cTxB.id, cTxB)] (minedTxIds [cTxB])) cTxB.id =
      none :=
  (mined_snapshot_removed_from_mempool [(cTxB.id, cTxB)] [cTxB]).1 cTxB (by decide)

set_option maxRecDepth 10000 in
/-- C7 counterexample: a pending transaction on shard 1 is not included in the
shard-0 block (index 1), yet its id is removed from the mempool — it does not
remain pending. -/
theorem unmined_tx_also_removed :
    cTxB ∉ minedBlockTxs 1 [9] 7 [99] 1 [cTxB] 0 ∧
    mpLookup (removeTransactions [(cTxB.id, cTxB)] (minedTxIds [cTxB])) cTxB.id =
      none := by
  decide

/-- C8: `submit_transaction` admits a transaction to the mempool only if the
receiver parses as a valid network identity, differs from the sender's
address, and `amount + fee` fits within the sender's balance minus the
pending spend (saturating arithmetic); on every rejection the mempool is
returned unchanged. -/
theorem submit_admission_invariant (parseOk : List Nat → Bool)
    (count peer_count : Nat) (wallet : Option (List Nat)) (balance : Nat)
    (pool : MempoolTab) (uuid : List Nat) (now : Nat) (receiver : List Nat)
    (amount : Nat) :
    (∀ tid, (submitTransaction parseOk count peer_count wallet balance pool uuid
        now receiver amount).1 = .ok tid →
      parseOk receiver = true ∧
      ∃ address, wallet = some address ∧ receiver ≠ address ∧
        satAdd amount (calculate_fee amount) ≤
          satSub balance (getTotalPendingSpend pool address)) ∧
    (∀ e, (submitTransaction parseOk count peer_count wallet balance pool uuid
        now receiver amount).1 = .error e →
      (submitTransaction parseOk count peer_count wallet balance pool uuid
        now receiver amount).2 = pool) := by
  rcases wallet with _ | address
  · simp only [submitTransaction]
    split_ifs <;> exact ⟨fun tid h => by simp at h, fun e _ => rfl⟩
  · simp only [submitTransaction]
    split_ifs
    all_goals try exact ⟨fun tid h => by simp at h, fun e _ => rfl⟩
    cases hadd : addTransaction pool
        { id := uuid, sender := address, receiver := receiver, amount := amount,
          shard_id := getAssignedShard count address 0, timestamp := now,
          signature := SIG_BYTES } with
    | none => exact ⟨fun tid h => by simp at h, fun e _ => rfl⟩
    | some pool' =>
        exact ⟨fun tid _ => ⟨by assumption, address, rfl, by assumption, by omega⟩,
          fun e h => by simp at h⟩

set_option maxRecDepth 10000 in
theorem submit_admission_witness :
    (submitTransaction (fun _ => false) 1 1 (some [97]) 0 [] [5] 0 [98] 3).2 = [] :=
  (submit_admission_invariant (fun _ => false) 1 1 (some [97]) 0 [] [5] 0 [98] 3).2
    .invalidAddress (by rfl)

/-- Trust bounds survive `updateNode` whenever the update function preserves
them pointwise. -/
theorem trustInv_updateNode {c : Consensus} (pid : List Nat)
    (f : NodeState → NodeState) (h : TrustInv c)
    (hf : ∀ n : NodeState,
      (1 : ℚ)/100 ≤ n.trust_score → n.trust_score ≤ 1 →
      (1 : ℚ)/100 ≤ (f n).trust_score ∧ (f n).trust_score ≤ 1) :
    TrustInv { c with nodes := updateNode c.nodes pid f } := by
  intro p hp
  simp only [updateNode, List.mem_map] at hp
  obtain ⟨q, hq, rfl⟩ := hp
  by_cases hpid : q.1 = pid
  · rw [if_pos hpid]
    exact hf q.2 (h q hq).1 (h q hq).2
  · rw [if_neg hpid]
    exact h q hq

/-- C9: starting from a registry whose trust scores all lie in [0.01, 1.0],
every registry operation — register, slash, reward, verify, mark-active,
update-active-status, force-activate-local, set-local-peer-id — keeps every
trust score inside [0.01, 1.0]. -/
theorem registry_trust_score_bounds (now : Nat) (c : Consensus) (op : RegOp)
    (h : TrustInv c) : TrustInv (applyRegOp now c op) := by
  cases op with
  | register pid =>
      simp only [applyRegOp, registerNode]
      split
      · exact h
      · intro p hp
        rcases List.mem_append.1 hp with hp | hp
        · exact h p hp
        · simp only [List.mem_singleton] at hp
          subst hp
          refine ⟨?_, ?_⟩ <;> simp [NodeState.new] <;> norm_num
  | slash pid =>
      refine trustInv_updateNode pid _ h ?_
      intro n h1 h2
      split
      · exact ⟨by norm_num, by norm_num⟩
      · rename_i hge
        push_neg at hge
        refine ⟨hge, ?_⟩
        show n.trust_score * (1/2) ≤ 1
        linarith
  | reward pid =>
      refine trustInv_updateNode pid _ h ?_
      intro n h1 h2
      refine ⟨le_min (by linarith) (by norm_num), min_le_right _ _⟩
  | verify pid proof vdfOk =>
      simp only [applyRegOp, verifyPeer]
      split
      · exact trustInv_updateNode pid _ h fun n h1 h2 => ⟨h1, h2⟩
      · exact h
  | markActive pid =>
      simp only [applyRegOp, markPeerActive]
      split
      · refine trustInv_updateNode pid _ h ?_
        intro n h1 h2
        split
        · exact ⟨le_min (by linarith) (by norm_num), min_le_right _ _⟩
        · exact ⟨h1, h2⟩
      · intro p hp
        rcases List.mem_append.1 hp with hp | hp
        · exact h p hp
        · simp only [List.mem_singleton] at hp
          subst hp
          constructor <;> simp [NodeState.new, NodeState.activateAt] <;> norm_num
  | updateStatus =>
      intro p hp
      simp only [applyRegOp, updateActiveStatus, List.mem_map] at hp
      obtain ⟨q, hq, rfl⟩ := hp
      have hb := h q hq
      split
      · split
        · exact hb
        · exact hb
      · split
        · exact hb
        · split
          · simp only [NodeState.activateAt]
            split <;> exact hb
          · exact hb
  | forceActivate =>
      simp only [applyRegOp, forceActivateLocal]
      split
      · refine trustInv_updateNode _ _ h ?_
        intro n _ _
        exact ⟨by show (1:ℚ)/100 ≤ 1; norm_num, by show (1:ℚ) ≤ 1; norm_num⟩
      · exact h
  | setLocal pid =>
      simp only [applyRegOp, setLocalPeerId]
      intro p hp
      split at hp
      · exact h p hp
      · rcases List.mem_append.1 hp with hp' | hp'
        · exact h p hp'
        · simp only [List.mem_singleton] at hp'
          subst hp'
          constructor <;> simp [NodeState.new] <;> norm_num

theorem registry_trust_score_bounds_witness :
    TrustInv (applyRegOp 0 cConsAB (.slash [97])) :=
  registry_trust_score_bounds 0 cConsAB (.slash [97]) (by
    intro p hp
    have hp' : p = ([97], cNode [97]) ∨ p = ([98], cNode [98]) := by
      simpa [cConsAB] using hp
    rcases hp' with rfl | rfl <;>
      exact ⟨by show (1:ℚ)/100 ≤ 1; norm_num, by show (1:ℚ) ≤ 1; norm_num⟩)

theorem toBE8_inj {x y : Nat} (hx : x < U64MOD) (hy : y < U64MOD)
    (h : toBE8 x = toBE8 y) : x = y := by
  simp only [toBE8, List.cons.injEq, and_true] at h
  simp only [U64MOD] at hx hy
  omega

theorem toBE4_inj {x y : Nat} (hx : x < U32MOD) (hy : y < U32MOD)
    (h : toBE4 x = toBE4 y) : x = y := by
  simp only [toBE4, List.cons.injEq, and_true] at h
  simp only [U32MOD] at hx hy
  omega

/-- C4 (amended): the stamped hash of a sealed block matches recomputing
`calculate_hash` with the block's current vdf proof (the later size restamp
does not disturb it), and `calculate_hash` covers exactly its thirteen input
fields: blocks agreeing on those thirteen hash identically regardless of
`shard_id`, `size`, `start_time_weight`, `signature`, body or stored hash,
while changing any single hashed field (the others fixed) changes the byte
string fed to SHA-256. -/
theorem block_hash_field_coverage (b : Block) (proof : List Nat) :
    (sealBlock proof b).hash = calculateHash (sealBlock proof b) ∧
    (∀ b' : Block, hashedFieldsEq b b' → calculateHash b = calculateHash b') ∧
    (BlockWF b →
      (∀ x : Nat, x < U64MOD → x ≠ b.index →
        hashInput { b with index := x } ≠ hashInput b) ∧
      (∀ x : Nat, x < U64MOD → x ≠ b.timestamp →
        hashInput { b with timestamp := x } ≠ hashInput b) ∧
      (∀ s : List Nat, s ≠ b.author →
        hashInput { b with author := s } ≠ hashInput b) ∧
      (∀ s : List Nat, s ≠ b.previous_hash →
        hashInput { b with previous_hash := s } ≠ hashInput b) ∧
      (∀ s : List Nat, s ≠ b.vdf_proof →
        hashInput { b with vdf_proof := s } ≠ hashInput b) ∧
      (∀ s : List Nat, s ≠ b.merkle_root →
        hashInput { b with merkle_root := s } ≠ hashInput b) ∧
      (∀ s : List Nat, s ≠ b.state_root →
        hashInput { b with state_root := s } ≠ hashInput b) ∧
      (∀ x : Nat, x < U64MOD → x ≠ b.nonce →
        hashInput { b with nonce := x } ≠ hashInput b) ∧
      (∀ x : Nat, x < U64MOD → x ≠ b.vdf_difficulty →
        hashInput { b with vdf_difficulty := x } ≠ hashInput b) ∧
      (∀ x : Nat, x < U32MOD → x ≠ b.version →
        hashInput { b with version := x } ≠ hashInput b) ∧
      (∀ x : Nat, x < U64MOD → x ≠ b.total_fees →
        hashInput { b with total_fees := x } ≠ hashInput b) ∧
      (∀ x : Nat, x < U64MOD → x ≠ b.block_reward →
        hashInput { b with block_reward := x } ≠ hashInput b) ∧
      (∀ x : Nat, x < U64MOD → x ≠ b.total_reward →
        hashInput { b with total_reward := x } ≠ hashInput b)) := by
  refine ⟨by simp only [sealBlock, calculateHash, hashInput], ?_, ?_⟩
  · intro b' h
    obtain ⟨h1, h2, h3, h4, h5, h6, h7, h8, h9, h10, h11, h12, h13⟩ := h
    simp only [calculateHash, hashInput, h1, h2, h3, h4, h5, h6, h7, h8, h9,
      h10, h11, h12, h13]
  · intro hwf
    obtain ⟨hbi, hbt, hbn, hbd, hbv, hbf, hbr, hbtr⟩ := hwf
    refine ⟨?_, ?_, ?_, ?_, ?_, ?_, ?_, ?_, ?_, ?_, ?_, ?_, ?_⟩
    · intro x hx hne hin
      apply hne
      simp only [hashInput] at hin
      iterate 12 replace hin := List.append_cancel_right hin
      exact toBE8_inj hx hbi hin
    · intro x hx hne hin
      apply hne
      simp only [hashInput] at hin
      iterate 11 replace hin := List.append_cancel_right hin
      exact toBE8_inj hx hbt (List.append_cancel_left hin)
    · intro s hne hin
      apply hne
      simp only [hashInput] at hin
      iterate 10 replace hin := List.append_cancel_right hin
      exact List.append_cancel_left hin
    · intro s hne hin
      apply hne
      simp only [hashInput] at hin
      iterate 9 replace hin := List.append_cancel_right hin
      exact List.append_cancel_left hin
    · intro s hne hin
      apply hne
      simp only [hashInput] at hin
      iterate 8 replace hin := List.append_cancel_right hin
      exact List.append_cancel_left hin
    · intro s hne hin
      apply hne
      simp only [hashInput] at hin
      iterate 7 replace hin := List.append_cancel_right hin
      exact List.append_cancel_left hin
    · intro s hne hin
      apply hne
      simp only [hashInput] at hin
      iterate 6 replace hin := List.append_cancel_right hin
      exact List.append_cancel_left hin
    · intro x hx hne hin
      apply hne
      simp only [hashInput] at hin
      iterate 5 replace hin := List.append_cancel_right hin
      exact toBE8_inj hx hbn (List.append_cancel_left hin)
    · intro x hx hne hin
      apply hne
      simp only [hashInput] at hin
      iterate 4 replace hin := List.append_cancel_right hin
      exact toBE8_inj hx hbd (List.append_cancel_left hin)
    · intro x hx hne hin
      apply hne
      simp only [hashInput] at hin
      iterate 3 replace hin := List.append_cancel_right hin
      exact toBE4_inj hx hbv (List.append_cancel_left hin)
    · intro x hx hne hin
      apply hne
      simp only [hashInput] at hin
      iterate 2 replace hin := List.append_cancel_right hin
      exact toBE8_inj hx hbf (List.append_cancel_left hin)
    · intro x hx hne hin
      apply hne
      simp only [hashInput] at hin
      iterate 1 replace hin := List.append_cancel_right hin
      exact toBE8_inj hx hbr (List.append_cancel_left hin)
    · intro x hx hne hin
      apply hne
      simp only [hashInput] at hin
      exact toBE8_inj hx hbtr (List.append_cancel_left hin)

set_option maxRecDepth 10000 in
theorem block_hash_field_coverage_witness :
    calculateHash cBlock = calculateHash { cBlock with signature := [9] } :=
  (block_hash_field_coverage cBlock []).2.1 { cBlock with signature := [9] }
    (by decide)

set_option maxRecDepth 10000 in
/-- C4 counterexample: two blocks differing only in `shard_id` (and therefore
in at least one header byte) have identical `calculate_hash` values —
`shard_id`, like `size` and `start_time_weight`, is not hashed. -/
theorem calculate_hash_ignores_shard_id :
    ({ cBlock with shard_id := 7 } : Block) ≠ cBlock ∧
    calculateHash { cBlock with shard_id := 7 } = calculateHash cBlock := by
  decide

theorem lexLe_total : ∀ a b : List Nat, lexLe a b = true ∨ lexLe b a = true := by
  intro a
  induction a with
  | nil => intro b; left; rfl
  | cons x xs ih =>
      intro b
      cases b with
      | nil => right; rfl
      | cons y ys =>
          by_cases h1 : x < y
          · left; simp [lexLe, h1]
          · by_cases h2 : y < x
            · right; simp [lexLe, h2]
            · rcases ih ys with h | h
              · left; simp [lexLe, h1, h2, h]
              · right; simp [lexLe, h1, h2, h]

theorem lexLe_antisymm : ∀ a b : List Nat,
    lexLe a b = true → lexLe b a = true → a = b := by
  intro a
  induction a with
  | nil =>
      intro b _ h2
      cases b with
      | nil => rfl
      | cons y ys => simp [lexLe] at h2
  | cons x xs ih =>
      intro b h1 h2
      cases b with
      | nil => simp [lexLe] at h1
      | cons y ys =>
          simp only [lexLe] at h1 h2
          by_cases hxy : x < y
          · rw [if_neg (by omega), if_pos hxy] at h2
            exact absurd h2 (by simp)
          · by_cases hyx : y < x
            · rw [if_neg hxy, if_pos hyx] at h1
              exact absurd h1 (by simp)
            · rw [if_neg hxy, if_neg hyx] at h1
              rw [if_neg hyx, if_neg hxy] at h2
              have hx : x = y := by omega
              rw [hx, ih ys h1 h2]

theorem lexLe_trans : ∀ a b c : List Nat,
    lexLe a b = true → lexLe b c = true → lexLe a c = true := by
  intro a
  induction a with
  | nil => intro b c _ _; rfl
  | cons x xs ih =>
      intro b c h1 h2
      cases b with
      | nil => simp [lexLe] at h1
      | cons y ys =>
          cases c with
          | nil => simp [lexLe] at h2
          | cons z zs =>
              simp only [lexLe] at h1 h2 ⊢
              by_cases hxy : x < y
              · rw [if_pos hxy] at h1
                by_cases hyz : y < z
                · rw [if_pos (by omega)]
                · by_cases hzy : z < y
                  · rw [if_neg hyz, if_pos hzy] at h2
                    exact absurd h2 (by simp)
                  · rw [if_pos (by omega)]
              · by_cases hyx : y < x
                · rw [if_neg hxy, if_pos hyx] at h1
                  exact absurd h1 (by simp)
                · rw [if_neg hxy, if_neg hyx] at h1
                  by_cases hyz : y < z
                  · rw [if_pos (by omega)]
                  · by_cases hzy : z < y
                    · rw [if_neg hyz, if_pos hzy] at h2
                      exact absurd h2 (by simp)
                    · rw [if_neg hyz, if_neg hzy] at h2
                      rw [if_neg (by omega), if_neg (by omega)]
                      exact ih ys zs h1 h2

instance : IsTotal (List Nat) lexLeR :=
  ⟨fun a b => lexLe_total a b⟩

instance : IsTrans (List Nat) lexLeR :=
  ⟨fun a b c h1 h2 => lexLe_trans a b c h1 h2⟩

instance : IsAntisymm (List Nat) lexLeR :=
  ⟨fun a b h1 h2 => lexLe_antisymm a b h1 h2⟩

theorem insertionSort_eq_of_perm {a b : List (List Nat)} (h : a.Perm b) :
    a.insertionSort lexLeR = b.insertionSort lexLeR :=
  List.eq_of_perm_of_sorted
    ((List.perm_insertionSort _ a).trans (h.trans (List.perm_insertionSort _ b).symm))
    (List.sorted_insertionSort _ a) (List.sorted_insertionSort _ b)

theorem perm_isEmpty {α : Type} {a b : List α} (h : a.Perm b) :
    a.isEmpty = b.isEmpty := by
  rcases a with _ | ⟨x, xs⟩ <;> rcases b with _ | ⟨y, ys⟩
  · rfl
  · exact absurd h.length_eq (by simp)
  · exact absurd h.length_eq (by simp)
  · rfl

theorem lookupNode_perm :
    ∀ {l1 l2 : List (List Nat × NodeState)}, l1.Perm l2 →
      (l1.map Prod.fst).Nodup → ∀ pid, lookupNode l1 pid = lookupNode l2 pid := by
  intro l1 l2 h
  induction h with
  | nil => intro _ _; rfl
  | cons x h ih =>
      intro hnd pid
      obtain ⟨k, n⟩ := x
      simp only [lookupNode]
      split
      · rfl
      · exact ih (by simpa using (List.nodup_cons.1 (by simpa using hnd)).2) pid
  | swap x y l =>
      intro hnd pid
      obtain ⟨k1, n1⟩ := x
      obtain ⟨k2, n2⟩ := y
      have hne : k2 ≠ k1 := by
        simp only [List.map_cons, List.nodup_cons, List.mem_cons] at hnd
        exact fun he => hnd.1 (Or.inl he)
      simp only [lookupNode]
      by_cases hk2 : k2 = pid
      · rw [if_pos hk2, if_neg (fun hk1 : k1 = pid => hne (hk2.trans hk1.symm)),
          if_pos hk2]
      · rw [if_neg hk2]
        by_cases hk1 : k1 = pid
        · rw [if_pos hk1, if_pos hk1]
        · rw [if_neg hk1, if_neg hk1, if_neg hk2]
  | trans h1 h2 ih1 ih2 =>
      intro hnd pid
      rw [ih1 hnd pid, ih2 (((h1.map Prod.fst).nodup_iff).1 hnd) pid]

theorem isEligible_congr (now : Nat) {c1 c2 : Consensus}
    (h : c1.nodes.Perm c2.nodes) (hnd : (c1.nodes.map Prod.fst).Nodup)
    (pid : List Nat) :
    isEligibleForLeadership now c1 pid = isEligibleForLeadership now c2 pid := by
  unfold isEligibleForLeadership
  rw [lookupNode_perm h hnd pid, h.length_eq]

theorem eligibleValidators_perm (now shard epoch : Nat) {c1 c2 : Consensus}
    (h : c1.nodes.Perm c2.nodes) (hnd : (c1.nodes.map Prod.fst).Nodup) :
    (eligibleValidators now c1 shard epoch).Perm
      (eligibleValidators now c2 shard epoch) := by
  unfold eligibleValidators
  have hfc : c2.nodes.filter (fun p =>
        decide (getAssignedShard c2.nodes.length p.1 epoch = shard) &&
        isEligibleForLeadership now c2 p.1) =
      c2.nodes.filter (fun p =>
        decide (getAssignedShard c1.nodes.length p.1 epoch = shard) &&
        isEligibleForLeadership now c1 p.1) := by
    refine List.filter_congr ?_
    intro p _
    rw [h.length_eq, isEligible_congr now h hnd p.1]
  rw [hfc]
  exact (h.filter _).map _

theorem leaderCandidates_perm (now shard epoch : Nat) {c1 c2 : Consensus}
    (h : c1.nodes.Perm c2.nodes) (hnd : (c1.nodes.map Prod.fst).Nodup) :
    (leaderCandidates now c1 shard epoch).Perm (leaderCandidates now c2 shard epoch) := by
  simp only [leaderCandidates]
  have he := eligibleValidators_perm now shard epoch h hnd
  rw [← perm_isEmpty he, ← h.length_eq]
  split
  · split
    · exact h.map _
    · exact List.Perm.refl _
  · exact he

/-- C1: leader election is deterministic — two `Consensus` states holding the
same registry contents (the same `peer_id -> NodeState` map, in any hash-map
iteration order, evaluated at the same time) return the same leader from
`get_shard_leader`, because the candidate list is sorted lexicographically
before the `r mod len` index is applied. -/
theorem shard_leader_deterministic (now shard slot : Nat) (c1 c2 : Consensus)
    (h : c1.nodes.Perm c2.nodes) (hnd : (c1.nodes.map Prod.fst).Nodup) :
    getShardLeader now c1 shard slot = getShardLeader now c2 shard slot := by
  simp only [getShardLeader]
  have hc := leaderCandidates_perm now shard (slot / (EPOCH_DURATION / SLOT_DURATION)) h hnd
  rw [← perm_isEmpty hc, ← insertionSort_eq_of_perm hc]

set_option maxRecDepth 10000 in
theorem shard_leader_deterministic_witness :
    getShardLeader 1000 cConsAB 0 5 = getShardLeader 1000 cConsBA 0 5 :=
  shard_leader_deterministic 1000 0 5 cConsAB cConsBA (by decide) (by decide)

end AGChain
